import Mathlib

/-!
# Verification of the gosync-sample checksum-index codec and sync wiring

Shallow embedding of `src/main.go` (package `main` of iwate/gosync-sample).
Bytes are modelled as `Nat` (well-formed streams have every byte `< 256`);
Go's `int64`/`int` are modelled as `Int` with explicit two's-complement
wrapping where the code converts, and Go's `uint` as reduction mod `2^64`.
Parts of the program that live in the imported go-sync library (checksum
generation, chunk loading, index construction, the patch engine) are not in
the repository source; those definitions are modelled from the spec and say
so in their doc comments.
-/

/-- Little-endian byte encoding: `n` bytes of `val` (mirrors Go's
`binary.LittleEndian.PutUint32/PutUint64` on a value already reduced). -/
def toBytesLE : Nat → Nat → List Nat
  | 0, _ => []
  | n + 1, v => (v % 256) :: toBytesLE n (v / 256)

/-- Little-endian byte decoding (mirrors Go's `binary.LittleEndian.Uint32/Uint64`). -/
def fromBytesLE : List Nat → Nat
  | [] => 0
  | b :: bs => b + 256 * fromBytesLE bs

/-- Go's `int64(u)` reinterpretation of a `uint64` value: two's complement. -/
def uintToInt64 (u : Nat) : Int :=
  if u < 2 ^ 63 then (u : Int) else (u : Int) - 2 ^ 64

/-- Go's `uint(v)` conversion of a signed value (64-bit `uint`): reduce mod `2^64`. -/
def intToUint64 (v : Int) : Nat :=
  (v % 2 ^ 64).toNat

/-- `intToBytes` from src/main.go lines 226-230: 4-byte little-endian of
`uint32(val)`. -/
def intToBytes (val : Int) : List Nat :=
  toBytesLE 4 (val % 2 ^ 32).toNat

/-- `int64ToBytes` from src/main.go lines 232-236: 8-byte little-endian of
`uint64(val)`. -/
def int64ToBytes (val : Int) : List Nat :=
  toBytesLE 8 (val % 2 ^ 64).toNat

/-- A checksum record: the weak-checksum bytes and the strong-checksum bytes
of one block, in block order (spec §3, `ChecksumRecord`). -/
abbrev ChecksumRecord := List Nat × List Nat

/-- Serialization of one record: weak bytes then strong bytes (spec §4.2;
this is the order `GenerateChecksums` writes, modelled from the spec since
the generator lives in the go-sync library, not in src/). -/
def recordBytes (r : ChecksumRecord) : List Nat :=
  r.1 ++ r.2

/-- `EncodeChecksumIndex` from src/main.go lines 115-129, with the widths and
the record stream abstracted as parameters: writes the 8-byte little-endian
file size, the 4-byte little-endian weak width, the 4-byte little-endian
strong width, then every record's bytes in order.  (In the program the widths
come from the generator's hash sizes and the records from
`generator.GenerateChecksums`, which is library code; its output format -
weak bytes then strong bytes per block - is modelled from the spec.) -/
def EncodeChecksumIndex (fileSize : Int) (weakSize strongSize : Int)
    (records : List ChecksumRecord) : List Nat :=
  int64ToBytes fileSize ++ intToBytes weakSize ++ intToBytes strongSize ++
    (records.map recordBytes).flatten

/-- Modelled from the spec: `chunks.LoadChecksumsFromReader` (go-sync library,
not in src/).  Spec §4.2: validates that the weak and strong widths are
positive, then reads the remainder in `weak+strong`-byte chunks until
end-of-stream; a remainder that is not an exact multiple of the record size
is a decode error.  Returns `none` on error. -/
def chunkRecordsAux (w s : Nat) : Nat → List Nat → List ChecksumRecord
  | _, [] => []
  | 0, _ :: _ => []
  | fuel + 1, b :: rest =>
    if w + s = 0 then []
    else
      ((b :: rest).take w, ((b :: rest).drop w).take s) ::
        chunkRecordsAux w s fuel ((b :: rest).drop (w + s))

/-- Chunking of the record stream into `(weak, strong)` byte pairs (the
stream's length bounds the number of records, so it serves as fuel). -/
def chunkRecords (w s : Nat) (l : List Nat) : List ChecksumRecord :=
  chunkRecordsAux w s l.length l

theorem chunkRecordsAux_congr (w s : Nat) :
    ∀ (f₁ : Nat) (l : List Nat), l.length ≤ f₁ → ∀ (f₂ : Nat), l.length ≤ f₂ →
      chunkRecordsAux w s f₁ l = chunkRecordsAux w s f₂ l := by
  intro f₁
  induction f₁ with
  | zero =>
    intro l hl f₂ h₂
    cases l with
    | nil => cases f₂ <;> rfl
    | cons b rest => simp at hl
  | succ f ih =>
    intro l hl f₂ h₂
    cases l with
    | nil => cases f₂ <;> rfl
    | cons b rest =>
      cases f₂ with
      | zero => simp at h₂
      | succ g =>
        simp only [chunkRecordsAux]
        by_cases hws : w + s = 0
        · simp [hws]
        · simp only [if_neg hws]
          have hlen : ((b :: rest).drop (w + s)).length ≤ f := by
            simp only [List.length_drop, List.length_cons]
            simp only [List.length_cons] at hl
            omega
          have hlen2 : ((b :: rest).drop (w + s)).length ≤ g := by
            simp only [List.length_drop, List.length_cons]
            simp only [List.length_cons] at h₂
            omega
          rw [ih _ hlen _ hlen2]

/-- Modelled from the spec: the error/validation layer of
`chunks.LoadChecksumsFromReader` (spec §4.2): non-positive widths or a
record stream that is not a whole number of records is a decode error. -/
def loadChecksumsFromReader (rest : List Nat) (weakSize strongSize : Int) :
    Option (List ChecksumRecord) :=
  if weakSize ≤ 0 ∨ strongSize ≤ 0 then none
  else if rest.length % (weakSize.toNat + strongSize.toNat) ≠ 0 then none
  else some (chunkRecords weakSize.toNat strongSize.toNat rest)

/-- Result of `DecodeChecksumIndex`: Go returns named values
`(fileSize, idx, lookup, err)`; on a header read failure `fileSize` is still
zero and the index is nil, on a record-stream failure `fileSize` carries the
already-decoded value and the index is nil.  `err fs` records the `fileSize`
named-return value at the point of error. -/
inductive DecodeResult where
  | ok (fileSize : Int) (records : List ChecksumRecord)
  | err (fileSize : Int)
deriving DecidableEq, Repr

/-- Whether the decode failed. -/
def DecodeResult.isErr : DecodeResult → Bool
  | .ok _ _ => false
  | .err _ => true

/-- The `fileSize` named-return value. -/
def DecodeResult.fileSize : DecodeResult → Int
  | .ok fs _ => fs
  | .err fs => fs

/-- `DecodeChecksumIndex` from src/main.go lines 132-166: three `io.CopyN`
reads of 8, 4 and 4 bytes (any shortfall errors out before `fileSize` is
assigned), little-endian reinterpretation of the three header fields, then
`chunks.LoadChecksumsFromReader` on the remainder (the loader itself is
modelled from the spec, see `loadChecksumsFromReader`). -/
def DecodeChecksumIndex (input : List Nat) : DecodeResult :=
  if input.length < 16 then .err 0
  else
    match loadChecksumsFromReader (input.drop 16)
        ((fromBytesLE ((input.drop 8).take 4) : Nat) : Int)
        ((fromBytesLE ((input.drop 12).take 4) : Nat) : Int) with
    | none => .err (uintToInt64 (fromBytesLE (input.take 8)))
    | some records => .ok (uintToInt64 (fromBytesLE (input.take 8))) records

/-! ## Byte-level helper lemmas -/

theorem toBytesLE_length (n v : Nat) : (toBytesLE n v).length = n := by
  induction n generalizing v with
  | zero => rfl
  | succ n ih => simp [toBytesLE, ih]

theorem fromBytesLE_toBytesLE (n v : Nat) :
    fromBytesLE (toBytesLE n v) = v % 256 ^ n := by
  induction n generalizing v with
  | zero => simp [toBytesLE, fromBytesLE, Nat.mod_one]
  | succ n ih =>
    rw [toBytesLE, fromBytesLE, ih]
    have h : 256 ^ (n + 1) = 256 * 256 ^ n := by ring
    rw [h, Nat.mod_mul]

theorem int64ToBytes_length (f : Int) : (int64ToBytes f).length = 8 :=
  toBytesLE_length 8 _

theorem intToBytes_length (v : Int) : (intToBytes v).length = 4 :=
  toBytesLE_length 4 _

theorem fromBytesLE_int64ToBytes (f : Int) (h₁ : -2 ^ 63 ≤ f) (h₂ : f < 2 ^ 63) :
    uintToInt64 (fromBytesLE (int64ToBytes f)) = f := by
  rw [int64ToBytes, fromBytesLE_toBytesLE]
  have hmod : (0 : Int) ≤ f % 2 ^ 64 ∧ f % 2 ^ 64 < 2 ^ 64 := by
    constructor
    · exact Int.emod_nonneg f (by norm_num)
    · exact Int.emod_lt_of_pos f (by norm_num)
  have hn : ((f % 2 ^ 64).toNat : Int) = f % 2 ^ 64 := Int.toNat_of_nonneg hmod.1
  have hlt : (f % 2 ^ 64).toNat < 256 ^ 8 := by
    have : (256 : Nat) ^ 8 = 2 ^ 64 := by norm_num
    rw [this]
    omega
  rw [Nat.mod_eq_of_lt hlt, uintToInt64]
  rcases le_or_lt 0 f with hf | hf
  · have : f % 2 ^ 64 = f := Int.emod_eq_of_lt hf (by omega)
    rw [this] at hn ⊢
    simp only [hn]
    have : (f.toNat : Int) = f := Int.toNat_of_nonneg hf
    split <;> omega
  · have : f % 2 ^ 64 = f + 2 ^ 64 := by omega
    rw [this] at hn ⊢
    split <;> omega

theorem fromBytesLE_intToBytes (v : Int) (h₁ : 0 ≤ v) (h₂ : v < 2 ^ 32) :
    ((fromBytesLE (intToBytes v) : Nat) : Int) = v := by
  rw [intToBytes, fromBytesLE_toBytesLE]
  have hv : v % 2 ^ 32 = v := Int.emod_eq_of_lt h₁ h₂
  rw [hv]
  have : (256 : Nat) ^ 4 = 2 ^ 32 := by norm_num
  rw [this]
  have : v.toNat < 2 ^ 32 := by omega
  rw [Nat.mod_eq_of_lt this]
  omega

/-! ## Record chunking lemmas -/

theorem chunkRecords_eq_cons (w s : Nat) (hws : 0 < w + s) (l : List Nat)
    (hl : l ≠ []) :
    chunkRecords w s l =
      (l.take w, (l.drop w).take s) :: chunkRecords w s (l.drop (w + s)) := by
  match l with
  | [] => exact absurd rfl hl
  | b :: rest =>
    rw [chunkRecords, List.length_cons, chunkRecordsAux]
    rw [if_neg (by omega : ¬ w + s = 0)]
    congr 1
    rw [chunkRecords]
    apply chunkRecordsAux_congr
    · simp only [List.length_drop, List.length_cons]
      omega
    · exact Nat.le_refl _

theorem chunkRecords_flatten (w s : Nat) (hws : 0 < w + s)
    (records : List ChecksumRecord)
    (hwf : ∀ r ∈ records, r.1.length = w ∧ r.2.length = s) :
    chunkRecords w s ((records.map recordBytes).flatten) = records := by
  induction records with
  | nil =>
    simp only [List.map_nil, List.flatten_nil]
    rfl
  | cons r rs ih =>
    obtain ⟨hw, hs⟩ := hwf r (List.mem_cons_self r rs)
    have hrec : recordBytes r = r.1 ++ r.2 := rfl
    have hflat : ((r :: rs).map recordBytes).flatten =
        r.1 ++ (r.2 ++ (rs.map recordBytes).flatten) := by
      simp [recordBytes]
    have hne : r.1 ++ (r.2 ++ (rs.map recordBytes).flatten) ≠ [] := by
      intro hcontra
      have := congrArg List.length hcontra
      simp [hw, hs] at this
      omega
    rw [hflat, chunkRecords_eq_cons w s hws _ hne]
    have htake : (r.1 ++ (r.2 ++ (rs.map recordBytes).flatten)).take w = r.1 :=
      List.take_left' hw
    have hdrop : (r.1 ++ (r.2 ++ (rs.map recordBytes).flatten)).drop w =
        r.2 ++ (rs.map recordBytes).flatten :=
      List.drop_left' hw
    have htake2 : (r.2 ++ (rs.map recordBytes).flatten).take s = r.2 :=
      List.take_left' hs
    have hdrop2 : (r.1 ++ (r.2 ++ (rs.map recordBytes).flatten)).drop (w + s) =
        (rs.map recordBytes).flatten := by
      have h1 : r.1 ++ (r.2 ++ (rs.map recordBytes).flatten) =
          (r.1 ++ r.2) ++ (rs.map recordBytes).flatten := by
        simp [List.append_assoc]
      rw [h1]
      exact List.drop_left' (by simp [hw, hs])
    rw [htake, hdrop, htake2, hdrop2, ih (fun x hx => hwf x (List.mem_cons_of_mem r hx))]

theorem flatten_records_length (w s : Nat) (records : List ChecksumRecord)
    (hwf : ∀ r ∈ records, r.1.length = w ∧ r.2.length = s) :
    ((records.map recordBytes).flatten).length = records.length * (w + s) := by
  induction records with
  | nil => simp
  | cons r rs ih =>
    obtain ⟨hw, hs⟩ := hwf r (List.mem_cons_self r rs)
    simp only [List.map_cons, List.flatten_cons, List.length_append,
      ih (fun x hx => hwf x (List.mem_cons_of_mem r hx))]
    simp [recordBytes, hw, hs, List.length_cons]
    ring

/-! ## Decode over an explicitly split stream -/

theorem DecodeChecksumIndex_append (A B C D : List Nat)
    (hA : A.length = 8) (hB : B.length = 4) (hC : C.length = 4) :
    DecodeChecksumIndex (A ++ (B ++ (C ++ D))) =
      match loadChecksumsFromReader D ((fromBytesLE B : Nat) : Int)
          ((fromBytesLE C : Nat) : Int) with
      | none => .err (uintToInt64 (fromBytesLE A))
      | some records => .ok (uintToInt64 (fromBytesLE A)) records := by
  have hlen : (A ++ (B ++ (C ++ D))).length = 16 + D.length := by
    simp only [List.length_append, hA, hB, hC]
    omega
  have h8 : (A ++ (B ++ (C ++ D))).take 8 = A := List.take_left' hA
  have hd8 : (A ++ (B ++ (C ++ D))).drop 8 = B ++ (C ++ D) := List.drop_left' hA
  have h12t : ((A ++ (B ++ (C ++ D))).drop 8).take 4 = B := by
    rw [hd8]
    exact List.take_left' hB
  have h12 : (A ++ (B ++ (C ++ D))).drop 12 = C ++ D := by
    have hre : A ++ (B ++ (C ++ D)) = (A ++ B) ++ (C ++ D) := by
      simp [List.append_assoc]
    rw [hre]
    exact List.drop_left' (by simp [hA, hB])
  have h12tt : ((A ++ (B ++ (C ++ D))).drop 12).take 4 = C := by
    rw [h12]
    exact List.take_left' hC
  have h16 : (A ++ (B ++ (C ++ D))).drop 16 = D := by
    have hre : A ++ (B ++ (C ++ D)) = ((A ++ B) ++ C) ++ D := by
      simp [List.append_assoc]
    rw [hre]
    exact List.drop_left' (by simp [hA, hB, hC])
  unfold DecodeChecksumIndex
  rw [if_neg (by omega), h8, h12t, h12tt, h16]

/-- C1: round-trip of the codec.  For every file size in the `int64` range,
every positive weak and strong width representable in the 4-byte header
fields, and every record sequence whose records have exactly those widths,
`DecodeChecksumIndex` applied to the stream produced by
`EncodeChecksumIndex` succeeds and recovers the same `fileSize` and the same
per-record weak and strong checksum bytes. -/
theorem c1_codec_roundtrip (fileSize weakSize strongSize : Int)
    (records : List ChecksumRecord)
    (hf₁ : -2 ^ 63 ≤ fileSize) (hf₂ : fileSize < 2 ^ 63)
    (hw₁ : 0 < weakSize) (hw₂ : weakSize < 2 ^ 32)
    (hs₁ : 0 < strongSize) (hs₂ : strongSize < 2 ^ 32)
    (hwf : ∀ r ∈ records,
      r.1.length = weakSize.toNat ∧ r.2.length = strongSize.toNat) :
    DecodeChecksumIndex (EncodeChecksumIndex fileSize weakSize strongSize records) =
      .ok fileSize records := by
  have hE : EncodeChecksumIndex fileSize weakSize strongSize records =
      int64ToBytes fileSize ++ (intToBytes weakSize ++
        (intToBytes strongSize ++ (records.map recordBytes).flatten)) := by
    simp [EncodeChecksumIndex, List.append_assoc]
  rw [hE, DecodeChecksumIndex_append _ _ _ _ (int64ToBytes_length _)
    (intToBytes_length _) (intToBytes_length _)]
  have hwv : ((fromBytesLE (intToBytes weakSize) : Nat) : Int) = weakSize :=
    fromBytesLE_intToBytes weakSize (by omega) hw₂
  have hsv : ((fromBytesLE (intToBytes strongSize) : Nat) : Int) = strongSize :=
    fromBytesLE_intToBytes strongSize (by omega) hs₂
  have hwN : fromBytesLE (intToBytes weakSize) = weakSize.toNat := by omega
  have hsN : fromBytesLE (intToBytes strongSize) = strongSize.toNat := by omega
  have hkpos : 0 < weakSize.toNat + strongSize.toNat := by omega
  have hload : loadChecksumsFromReader ((records.map recordBytes).flatten)
      ((fromBytesLE (intToBytes weakSize) : Nat) : Int)
      ((fromBytesLE (intToBytes strongSize) : Nat) : Int) = some records := by
    rw [hwv, hsv, loadChecksumsFromReader, if_neg (by omega)]
    rw [flatten_records_length weakSize.toNat strongSize.toNat records hwf]
    rw [if_neg (by simp [Nat.mul_mod_left])]
    rw [chunkRecords_flatten weakSize.toNat strongSize.toNat hkpos records hwf]
  rw [hload, fromBytesLE_int64ToBytes fileSize hf₁ hf₂]

/-- Witness for C1 at a concrete input: file size 45, weak width 4, strong
width 16, two records. -/
theorem c1_codec_roundtrip_witness :
    DecodeChecksumIndex (EncodeChecksumIndex 45 4 16
      [(List.replicate 4 1, List.replicate 16 2),
       (List.replicate 4 3, List.replicate 16 4)]) =
      .ok 45 [(List.replicate 4 1, List.replicate 16 2),
              (List.replicate 4 3, List.replicate 16 4)] :=
  c1_codec_roundtrip 45 4 16 _ (by norm_num) (by norm_num) (by norm_num)
    (by norm_num) (by norm_num) (by norm_num) (by decide)

/-- C2: wire format of Encode.  For every `fileSize`, the byte stream
produced by `EncodeChecksumIndex` begins with the 8-byte little-endian
`fileSize`, then the 4-byte little-endian weak width, then the 4-byte
little-endian strong width, followed only by the records, each record being
its weak bytes then its strong bytes with fixed record length
`weak-width + strong-width`. -/
theorem c2_encode_wire_format (fileSize weakSize strongSize : Int)
    (records : List ChecksumRecord)
    (hwf : ∀ r ∈ records,
      r.1.length = weakSize.toNat ∧ r.2.length = strongSize.toNat) :
    (EncodeChecksumIndex fileSize weakSize strongSize records).take 8 =
        int64ToBytes fileSize ∧
    (int64ToBytes fileSize).length = 8 ∧
    fromBytesLE ((EncodeChecksumIndex fileSize weakSize strongSize records).take 8) =
        (fileSize % 2 ^ 64).toNat % 2 ^ 64 ∧
    ((EncodeChecksumIndex fileSize weakSize strongSize records).drop 8).take 4 =
        intToBytes weakSize ∧
    (intToBytes weakSize).length = 4 ∧
    fromBytesLE (((EncodeChecksumIndex fileSize weakSize strongSize records).drop 8).take 4) =
        (weakSize % 2 ^ 32).toNat % 2 ^ 32 ∧
    ((EncodeChecksumIndex fileSize weakSize strongSize records).drop 12).take 4 =
        intToBytes strongSize ∧
    fromBytesLE (((EncodeChecksumIndex fileSize weakSize strongSize records).drop 12).take 4) =
        (strongSize % 2 ^ 32).toNat % 2 ^ 32 ∧
    (EncodeChecksumIndex fileSize weakSize strongSize records).drop 16 =
        (records.map recordBytes).flatten ∧
    (∀ r ∈ records, recordBytes r = r.1 ++ r.2 ∧
      (recordBytes r).length = weakSize.toNat + strongSize.toNat) := by
  have hE : EncodeChecksumIndex fileSize weakSize strongSize records =
      int64ToBytes fileSize ++ (intToBytes weakSize ++
        (intToBytes strongSize ++ (records.map recordBytes).flatten)) := by
    simp [EncodeChecksumIndex, List.append_assoc]
  have hA := int64ToBytes_length fileSize
  have hB := intToBytes_length weakSize
  have hC := intToBytes_length strongSize
  have h8 : (EncodeChecksumIndex fileSize weakSize strongSize records).take 8 =
      int64ToBytes fileSize := by
    rw [hE]
    exact List.take_left' hA
  have h12t : ((EncodeChecksumIndex fileSize weakSize strongSize records).drop 8).take 4 =
      intToBytes weakSize := by
    rw [hE, List.drop_left' hA]
    exact List.take_left' hB
  have h12tt : ((EncodeChecksumIndex fileSize weakSize strongSize records).drop 12).take 4 =
      intToBytes strongSize := by
    rw [hE]
    have hre : int64ToBytes fileSize ++ (intToBytes weakSize ++
        (intToBytes strongSize ++ (records.map recordBytes).flatten)) =
        (int64ToBytes fileSize ++ intToBytes weakSize) ++
          (intToBytes strongSize ++ (records.map recordBytes).flatten) := by
      simp [List.append_assoc]
    rw [hre, List.drop_left' (by simp [hA, hB])]
    exact List.take_left' hC
  have h16 : (EncodeChecksumIndex fileSize weakSize strongSize records).drop 16 =
      (records.map recordBytes).flatten := by
    rw [hE]
    have hre : int64ToBytes fileSize ++ (intToBytes weakSize ++
        (intToBytes strongSize ++ (records.map recordBytes).flatten)) =
        ((int64ToBytes fileSize ++ intToBytes weakSize) ++ intToBytes strongSize) ++
          (records.map recordBytes).flatten := by
      simp [List.append_assoc]
    rw [hre]
    exact List.drop_left' (by simp [hA, hB, hC])
  refine ⟨h8, hA, ?_, h12t, hB, ?_, h12tt, ?_, h16, ?_⟩
  · rw [h8, int64ToBytes, fromBytesLE_toBytesLE]
    norm_num
  · rw [h12t, intToBytes, fromBytesLE_toBytesLE]
    norm_num
  · rw [h12tt, intToBytes, fromBytesLE_toBytesLE]
    norm_num
  · intro r hr
    exact ⟨rfl, by simp [recordBytes, (hwf r hr).1, (hwf r hr).2]⟩

/-- Witness for C2 at a concrete input: file size 7, widths 4 and 16, one
record. -/
theorem c2_encode_wire_format_witness :
    (EncodeChecksumIndex 7 4 16 [(List.replicate 4 9, List.replicate 16 8)]).take 8 =
        int64ToBytes 7 ∧
    (int64ToBytes 7).length = 8 ∧
    fromBytesLE ((EncodeChecksumIndex 7 4 16 [(List.replicate 4 9, List.replicate 16 8)]).take 8) =
        ((7 : Int) % 2 ^ 64).toNat % 2 ^ 64 ∧
    ((EncodeChecksumIndex 7 4 16 [(List.replicate 4 9, List.replicate 16 8)]).drop 8).take 4 =
        intToBytes 4 ∧
    (intToBytes 4).length = 4 ∧
    fromBytesLE (((EncodeChecksumIndex 7 4 16 [(List.replicate 4 9, List.replicate 16 8)]).drop 8).take 4) =
        ((4 : Int) % 2 ^ 32).toNat % 2 ^ 32 ∧
    ((EncodeChecksumIndex 7 4 16 [(List.replicate 4 9, List.replicate 16 8)]).drop 12).take 4 =
        intToBytes 16 ∧
    fromBytesLE (((EncodeChecksumIndex 7 4 16 [(List.replicate 4 9, List.replicate 16 8)]).drop 12).take 4) =
        ((16 : Int) % 2 ^ 32).toNat % 2 ^ 32 ∧
    (EncodeChecksumIndex 7 4 16 [(List.replicate 4 9, List.replicate 16 8)]).drop 16 =
        ([(List.replicate 4 9, List.replicate 16 8)].map recordBytes).flatten ∧
    (∀ r ∈ [((List.replicate 4 9 : List Nat), (List.replicate 16 8 : List Nat))],
      recordBytes r = r.1 ++ r.2 ∧
      (recordBytes r).length = (4 : Int).toNat + (16 : Int).toNat) :=
  c2_encode_wire_format 7 4 16 [(List.replicate 4 9, List.replicate 16 8)] (by decide)

/-- C3: width validation on decode.  For every input stream of at least 16
bytes whose header declares a weak-checksum width or strong-checksum width
that is not positive (the decoded `int(uint32)` widths are never negative,
so non-positive means zero), `DecodeChecksumIndex` fails with a decode error
instead of returning an index.  The width check itself lives in the go-sync
chunk loader and is modelled from the spec (`loadChecksumsFromReader`). -/
theorem c3_decode_rejects_nonpositive_widths (input : List Nat)
    (hlen : 16 ≤ input.length)
    (hzero : fromBytesLE ((input.drop 8).take 4) = 0 ∨
      fromBytesLE ((input.drop 12).take 4) = 0) :
    DecodeChecksumIndex input =
      .err (uintToInt64 (fromBytesLE (input.take 8))) ∧
    (DecodeChecksumIndex input).isErr = true := by
  have hdec : DecodeChecksumIndex input =
      .err (uintToInt64 (fromBytesLE (input.take 8))) := by
    unfold DecodeChecksumIndex
    rw [if_neg (by omega)]
    have hload : loadChecksumsFromReader (input.drop 16)
        ((fromBytesLE ((input.drop 8).take 4) : Nat) : Int)
        ((fromBytesLE ((input.drop 12).take 4) : Nat) : Int) = none := by
      rw [loadChecksumsFromReader, if_pos]
      rcases hzero with h | h
      · left
        rw [h]
        norm_num
      · right
        rw [h]
        norm_num
    simp only [hload]
  exact ⟨hdec, by rw [hdec]; rfl⟩

/-- Witness for C3: a 16-byte stream declaring weak width 0 and strong
width 16 is rejected. -/
theorem c3_decode_rejects_nonpositive_widths_witness :
    DecodeChecksumIndex
        ([1, 0, 0, 0, 0, 0, 0, 0] ++ [0, 0, 0, 0] ++ [16, 0, 0, 0]) =
      .err (uintToInt64 (fromBytesLE
        (([1, 0, 0, 0, 0, 0, 0, 0] ++ [0, 0, 0, 0] ++ [16, 0, 0, 0]).take 8))) ∧
    (DecodeChecksumIndex
        ([1, 0, 0, 0, 0, 0, 0, 0] ++ [0, 0, 0, 0] ++ [16, 0, 0, 0])).isErr = true :=
  c3_decode_rejects_nonpositive_widths _ (by decide) (by decide)

/-- C4: truncation errors on decode.  Every input stream shorter than 16
bytes makes `DecodeChecksumIndex` return an error carrying a zero `fileSize`
(and no index); and every stream whose bytes after the 16-byte header are
not an exact multiple of `weak-width + strong-width` (widths positive) makes
it return a decode error (carrying the already-decoded `fileSize`).  The
multiple-of-record-size check lives in the go-sync chunk loader and is
modelled from the spec (`loadChecksumsFromReader`). -/
theorem c4_decode_truncation_errors (input : List Nat) :
    (input.length < 16 → DecodeChecksumIndex input = .err 0) ∧
    (16 ≤ input.length →
      0 < fromBytesLE ((input.drop 8).take 4) →
      0 < fromBytesLE ((input.drop 12).take 4) →
      (input.length - 16) %
          (fromBytesLE ((input.drop 8).take 4) +
            fromBytesLE ((input.drop 12).take 4)) ≠ 0 →
      DecodeChecksumIndex input =
        .err (uintToInt64 (fromBytesLE (input.take 8)))) := by
  constructor
  · intro hshort
    unfold DecodeChecksumIndex
    rw [if_pos hshort]
  · intro hlen hw hs hmod
    unfold DecodeChecksumIndex
    rw [if_neg (by omega)]
    have hload : loadChecksumsFromReader (input.drop 16)
        ((fromBytesLE ((input.drop 8).take 4) : Nat) : Int)
        ((fromBytesLE ((input.drop 12).take 4) : Nat) : Int) = none := by
      rw [loadChecksumsFromReader, if_neg (by omega)]
      rw [if_pos]
      simpa [List.length_drop, Int.toNat_natCast] using hmod
    simp only [hload]

/-- Witness for C4: the 3-byte stream `[1, 2, 3]` errors with zero file
size, and a 17-byte stream with widths 4 and 16 but a 1-byte record
remainder errors with the decoded file size. -/
theorem c4_decode_truncation_errors_witness :
    DecodeChecksumIndex [1, 2, 3] = .err 0 ∧
    DecodeChecksumIndex
        ([1, 0, 0, 0, 0, 0, 0, 0] ++ [4, 0, 0, 0] ++ [16, 0, 0, 0] ++ [9]) =
      .err (uintToInt64 (fromBytesLE
        (([1, 0, 0, 0, 0, 0, 0, 0] ++ [4, 0, 0, 0] ++ [16, 0, 0, 0] ++ [9]).take 8))) :=
  ⟨(c4_decode_truncation_errors [1, 2, 3]).1 (by decide),
   (c4_decode_truncation_errors _).2 (by decide) (by decide) (by decide) (by decide)⟩

/-! ## ChecksumIndex, FileSummary and GetSummary -/

/-- Modelled from the spec: `index.MakeChecksumIndex` (go-sync library, not
in src/).  Spec §3/§4.3: the in-memory index built from the decoded record
sequence; it maps a weak-checksum value to the ordered set of block indices
sharing it and a block index to its strong checksum. -/
structure ChecksumIndex where
  records : List ChecksumRecord
deriving DecidableEq, Repr

/-- Spec §4.3 `candidatesFor`: the ordered block indices whose weak checksum
bytes equal the given value (insertion order = block order). -/
def ChecksumIndex.candidatesFor (idx : ChecksumIndex) (weak : List Nat) :
    List Nat :=
  (List.range idx.records.length).filter
    (fun i => (idx.records.getD i ([], [])).1 = weak)

/-- Spec §4.3 `strongChecksumOf`: the stored strong checksum of a block, or
`none` beyond the block count (`OutOfRangeError`). -/
def ChecksumIndex.strongChecksumOf (idx : ChecksumIndex) (i : Nat) :
    Option (List Nat) :=
  (idx.records.get? i).map (fun r => r.2)

/-- An HTTP response as `GetSummary` sees it: a status code and a body.
(`http.Response` carries more; only these are relevant to the claims.) -/
structure HttpResponse where
  statusCode : Nat
  body : List Nat
deriving DecidableEq, Repr

/-- `gosync.BasicSummary` as filled in by `GetSummary` (src/main.go lines
187-193): the decoded index and lookup, `BlockCount` and `BlockSize` as Go
`uint` (modelled as the wrapped natural), and the signed `FileSize`. -/
structure BasicSummary where
  checksumIndex : ChecksumIndex
  checksumLookup : List (List Nat)
  blockCount : Nat
  blockSize : Nat
  fileSize : Int
deriving DecidableEq, Repr

/-- `GetSummary` from src/main.go lines 169-196: on a transport error
(`none` response) fail; otherwise decode the body (the status code is never
inspected), fail on a decode error, and otherwise build the summary.
`goBlockCount` is the block-count computation of lines 182-185:
`blockCount = fileSize / BlockSize` in Go `int64` (truncating) division,
incremented when `fileSize % BlockSize != 0`. -/
def goBlockCount (fileSize blockSize : Int) : Int :=
  if Int.tmod fileSize blockSize ≠ 0 then Int.tdiv fileSize blockSize + 1
  else Int.tdiv fileSize blockSize

/-- The `BasicSummary` literal of src/main.go lines 187-193: the decoded
index as `ChecksumIndex`, the strong checksums as lookup, the wrapped
`uint` block count and block size, and the signed file size. -/
def summaryOf (fileSize blockSize : Int) (records : List ChecksumRecord) :
    BasicSummary where
  checksumIndex := ⟨records⟩
  checksumLookup := records.map (fun r => r.2)
  blockCount := intToUint64 (goBlockCount fileSize blockSize)
  blockSize := intToUint64 blockSize
  fileSize := fileSize

/-- `GetSummary`, continued: the summary built on a successful decode. -/
def GetSummary (response : Option HttpResponse) (blockSize : Int) :
    Option BasicSummary :=
  match response with
  | none => none
  | some res =>
    match DecodeChecksumIndex res.body with
    | .err _ => none
    | .ok fileSize records => some (summaryOf fileSize blockSize records)

/-- Mathematical ceiling of `a / b` (the spec's `ceil(fileSize/blockSize)`),
written with Euclidean division; for `0 < b` this is the true ceiling. -/
def ceilDiv (a b : Int) : Int :=
  -((-a) / b)

theorem go_blockCount_eq_ceilDiv (fs bs : Int) (hfs : 0 ≤ fs) (hbs : 0 < bs) :
    goBlockCount fs bs = ceilDiv fs bs := by
  rw [goBlockCount, Int.tdiv_eq_ediv hfs (le_of_lt hbs),
    Int.tmod_eq_emod hfs (le_of_lt hbs), ceilDiv]
  have hr0 : 0 ≤ fs % bs := Int.emod_nonneg fs (ne_of_gt hbs)
  have hrlt : fs % bs < bs := Int.emod_lt_of_pos fs hbs
  have hfseq : bs * (fs / bs) + fs % bs = fs := Int.ediv_add_emod fs bs
  by_cases hr : fs % bs = 0
  · rw [if_neg (by simp [hr])]
    have hdvd : bs ∣ fs := ⟨fs / bs, by omega⟩
    rw [Int.neg_ediv_of_dvd hdvd]
    omega
  · rw [if_pos (by simpa using hr)]
    have h1 : (-fs) = (bs - fs % bs) + (-(fs / bs) - 1) * bs := by ring_nf; omega
    have h2 : (-fs) / bs = (bs - fs % bs) / bs + (-(fs / bs) - 1) := by
      rw [h1]
      exact Int.add_mul_ediv_right _ _ (ne_of_gt hbs)
    have h3 : (bs - fs % bs) / bs = 0 :=
      Int.ediv_eq_zero_of_lt (by omega) (by omega)
    rw [h2, h3]
    omega

/-! ## Bounds on decoded values -/

theorem fromBytesLE_lt (l : List Nat) (h : ∀ b ∈ l, b < 256) :
    fromBytesLE l < 256 ^ l.length := by
  induction l with
  | nil => simp [fromBytesLE]
  | cons b bs ih =>
    rw [fromBytesLE]
    have hb := h b (List.mem_cons_self b bs)
    have hr := ih (fun x hx => h x (List.mem_cons_of_mem b hx))
    have hpow : (256 : Nat) ^ (b :: bs).length = 256 * 256 ^ bs.length := by
      simp [List.length_cons]
      ring
    rw [hpow]
    omega

theorem fromBytesLE_ge (l : List Nat) (k : Nat) (hk : k < l.length) :
    256 ^ k * l.getD k 0 ≤ fromBytesLE l := by
  induction l generalizing k with
  | nil => simp at hk
  | cons b bs ih =>
    cases k with
    | zero => simp [fromBytesLE]
    | succ k =>
      rw [fromBytesLE]
      have hrec := ih k (by simpa using hk)
      have hpow : 256 ^ (k + 1) * (b :: bs).getD (k + 1) 0 =
          256 * (256 ^ k * bs.getD k 0) := by
        rw [List.getD_cons_succ]
        ring
      rw [hpow]
      omega

theorem intToUint64_cast (v : Int) (h0 : 0 ≤ v) (h1 : v < 2 ^ 64) :
    ((intToUint64 v : Nat) : Int) = v := by
  rw [intToUint64]
  have hv : v % 2 ^ 64 = v := Int.emod_eq_of_lt h0 h1
  rw [hv]
  omega

theorem decode_ok_fileSize_eq (input : List Nat) {fs : Int}
    {records : List ChecksumRecord}
    (h : DecodeChecksumIndex input = .ok fs records) :
    fs = uintToInt64 (fromBytesLE (input.take 8)) ∧ 16 ≤ input.length := by
  unfold DecodeChecksumIndex at h
  split at h
  · exact absurd h (by simp)
  · constructor
    · split at h
      · exact absurd h (by simp)
      · simp only [DecodeResult.ok.injEq] at h
        exact h.1.symm
    · omega

theorem decode_ok_fileSize_range (input : List Nat) (hwf : ∀ b ∈ input, b < 256)
    {fs : Int} {records : List ChecksumRecord}
    (h : DecodeChecksumIndex input = .ok fs records) :
    -2 ^ 63 ≤ fs ∧ fs < 2 ^ 63 := by
  obtain ⟨hfs, _⟩ := decode_ok_fileSize_eq input h
  have hu : fromBytesLE (input.take 8) < 2 ^ 64 := by
    have hlt := fromBytesLE_lt (input.take 8)
      (fun b hb => hwf b (List.mem_of_mem_take hb))
    have hlen : (input.take 8).length ≤ 8 := by
      simp [List.length_take]
    calc fromBytesLE (input.take 8) < 256 ^ (input.take 8).length := hlt
      _ ≤ 256 ^ 8 := Nat.pow_le_pow_right (by norm_num) hlen
      _ = 2 ^ 64 := by norm_num
  rw [hfs, uintToInt64]
  split <;> omega

theorem goBlockCount_bounds (fs bs : Int) (hfs : 0 ≤ fs) (hbs : 0 < bs) :
    0 ≤ goBlockCount fs bs ∧ goBlockCount fs bs ≤ fs + 1 := by
  rw [goBlockCount, Int.tdiv_eq_ediv hfs (le_of_lt hbs),
    Int.tmod_eq_emod hfs (le_of_lt hbs)]
  have hq0 : 0 ≤ fs / bs := Int.ediv_nonneg hfs (le_of_lt hbs)
  have heq : bs * (fs / bs) + fs % bs = fs := Int.ediv_add_emod fs bs
  have hr0 : 0 ≤ fs % bs := Int.emod_nonneg fs (ne_of_gt hbs)
  have hqle : fs / bs ≤ bs * (fs / bs) :=
    le_mul_of_one_le_left hq0 hbs
  constructor
  · split <;> omega
  · split <;> omega

/-- C5 counterexample: the claim quantifies over *every* decoded `fileSize`,
but a stream whose header encodes file size `-4` decodes without error, and
with block size 4 `GetSummary` returns `BlockCount = 2^64 - 1` (the `uint`
wrap of the Go `int64` value `-1`), which is not `ceil(-4 / 4) = -1`. -/
theorem c5_blockcount_ceil_counterexample :
    GetSummary (some ⟨200, EncodeChecksumIndex (-4) 4 16 []⟩) 4 =
      some (summaryOf (-4) 4 []) ∧
    (summaryOf (-4) 4 []).blockCount = 2 ^ 64 - 1 ∧
    ((2 ^ 64 - 1 : Nat) : Int) ≠ ceilDiv (-4) 4 := by
  refine ⟨by decide, by decide, by decide⟩

/-- C5 (amended): for every well-formed response body that decodes to a
**nonnegative** `fileSize` and every positive block size, the `FileSummary`
returned by `GetSummary` has `BlockCount` equal to `ceil(fileSize /
blockSize)` (rounded up exactly when `fileSize` is not a multiple of
`blockSize`); for a negative decoded `fileSize` the `uint` conversion wraps
instead (see the counterexample). -/
theorem c5_blockcount_ceil (res : HttpResponse) (blockSize fs : Int)
    (records : List ChecksumRecord) (s : BasicSummary)
    (hbytes : ∀ b ∈ res.body, b < 256)
    (hdec : DecodeChecksumIndex res.body = .ok fs records)
    (hfs : 0 ≤ fs) (hbs : 0 < blockSize)
    (hsum : GetSummary (some res) blockSize = some s) :
    (s.blockCount : Int) = ceilDiv fs blockSize ∧ s.fileSize = fs := by
  have hrange := decode_ok_fileSize_range res.body hbytes hdec
  have hs : s = summaryOf fs blockSize records := by
    simp only [GetSummary, hdec, Option.some.injEq] at hsum
    exact hsum.symm
  have hb := goBlockCount_bounds fs blockSize hfs hbs
  have hcast : ((intToUint64 (goBlockCount fs blockSize) : Nat) : Int) =
      goBlockCount fs blockSize :=
    intToUint64_cast _ hb.1 (by omega)
  rw [hs]
  constructor
  · show ((intToUint64 (goBlockCount fs blockSize) : Nat) : Int) =
      ceilDiv fs blockSize
    rw [hcast]
    exact go_blockCount_eq_ceilDiv fs blockSize hfs hbs
  · rfl

/-- Witness for C5 (amended) at the concrete scenario file size 45, block
size 4: the summary's block count is `12 = ceil(45/4)`. -/
theorem c5_blockcount_ceil_witness :
    ((summaryOf 45 4 []).blockCount : Int) = ceilDiv 45 4 ∧
    (summaryOf 45 4 []).fileSize = 45 :=
  c5_blockcount_ceil ⟨200, EncodeChecksumIndex 45 4 16 []⟩ 4 45 []
    (summaryOf 45 4 []) (by decide) (by decide) (by decide) (by decide)
    (by decide)

/-- C9: neither `DecodeChecksumIndex` nor `GetSummary` validates that the
decoded `fileSize` is nonnegative.  Every well-formed stream whose 8th byte
(the top byte of the little-endian `int64` field) has its top bit set
decodes without error to a negative `fileSize`; concretely, the 16-byte
header for file size `-2^63` with widths 4 and 16 decodes fine, and
`GetSummary` with block size 4 then returns the huge wrapped `uint`
`BlockCount = 2^64 - 2^61`. -/
theorem c9_negative_fileSize_wraps :
    (∀ (input : List Nat) (fs : Int) (records : List ChecksumRecord),
      (∀ b ∈ input, b < 256) →
      DecodeChecksumIndex input = .ok fs records →
      128 ≤ input.getD 7 0 → fs < 0) ∧
    DecodeChecksumIndex
        ([0, 0, 0, 0, 0, 0, 0, 128] ++ [4, 0, 0, 0] ++ [16, 0, 0, 0]) =
      .ok (-(2 ^ 63)) [] ∧
    GetSummary
        (some ⟨200, [0, 0, 0, 0, 0, 0, 0, 128] ++ [4, 0, 0, 0] ++ [16, 0, 0, 0]⟩)
        4 =
      some (summaryOf (-(2 ^ 63)) 4 []) ∧
    (summaryOf (-(2 ^ 63)) 4 []).blockCount = 2 ^ 64 - 2 ^ 61 ∧
    2 ^ 63 < (summaryOf (-(2 ^ 63)) 4 []).blockCount := by
  refine ⟨?_, by decide, by decide, by decide, by decide⟩
  intro input fs records hwf hdec hbyte
  obtain ⟨hfs, hlen⟩ := decode_ok_fileSize_eq input hdec
  have hlen8 : (input.take 8).length = 8 := by
    simp [List.length_take]
    omega
  have h7 : (input.take 8).getD 7 0 = input.getD 7 0 := by
    simp [List.getD_eq_getElem?_getD,
      List.getElem?_take_of_lt (by norm_num : (7 : Nat) < 8)]
  have hge : 256 ^ 7 * (input.take 8).getD 7 0 ≤ fromBytesLE (input.take 8) :=
    fromBytesLE_ge _ 7 (by omega)
  have hlt : fromBytesLE (input.take 8) < 2 ^ 64 := by
    have h := fromBytesLE_lt (input.take 8)
      (fun b hb => hwf b (List.mem_of_mem_take hb))
    rw [hlen8] at h
    calc fromBytesLE (input.take 8) < 256 ^ 8 := h
      _ = 2 ^ 64 := by norm_num
  have hge' : 2 ^ 63 ≤ fromBytesLE (input.take 8) := by
    rw [h7] at hge
    have : (256 : Nat) ^ 7 * 128 = 2 ^ 63 := by norm_num
    calc (2 : Nat) ^ 63 = 256 ^ 7 * 128 := this.symm
      _ ≤ 256 ^ 7 * input.getD 7 0 := Nat.mul_le_mul_left _ hbyte
      _ ≤ fromBytesLE (input.take 8) := hge
  rw [hfs, uintToInt64]
  split
  · omega
  · omega

/-- Witness for C9's universal part: the concrete top-bit-set header decodes
to the negative file size `-2^63`. -/
theorem c9_negative_fileSize_wraps_witness :
    (-(2 ^ 63) : Int) < 0 :=
  c9_negative_fileSize_wraps.1
    ([0, 0, 0, 0, 0, 0, 0, 128] ++ [4, 0, 0, 0] ++ [16, 0, 0, 0])
    (-(2 ^ 63)) [] (by decide) (by decide) (by decide)

/-- C10: `GetSummary` never inspects the HTTP status code: for every
response the body is fed directly to `DecodeChecksumIndex`, so two responses
with the same body and different statuses (e.g. 200 and 404) produce the
same result; whenever the body decodes, a summary built from it is returned
even for an error status, and when it does not decode, the only surfaced
failure is the decode error (`none`), never an HTTP-status error. -/
theorem c10_getsummary_ignores_status :
    (∀ (status₁ status₂ : Nat) (body : List Nat) (blockSize : Int),
      GetSummary (some ⟨status₁, body⟩) blockSize =
        GetSummary (some ⟨status₂, body⟩) blockSize) ∧
    (∀ (status : Nat) (body : List Nat) (blockSize : Int) (fs : Int)
        (records : List ChecksumRecord),
      DecodeChecksumIndex body = .ok fs records →
      GetSummary (some ⟨status, body⟩) blockSize =
        some (summaryOf fs blockSize records)) ∧
    (∀ (status : Nat) (body : List Nat) (blockSize fs : Int),
      DecodeChecksumIndex body = .err fs →
      GetSummary (some ⟨status, body⟩) blockSize = none) := by
  refine ⟨fun status₁ status₂ body blockSize => rfl, ?_, ?_⟩
  · intro status body blockSize fs records hdec
    simp only [GetSummary, hdec]
  · intro status body blockSize fs hdec
    simp only [GetSummary, hdec]

/-- Witness for C10: with status 404, a decodable body still yields a
summary and an undecodable 3-byte body yields the decode failure. -/
theorem c10_getsummary_ignores_status_witness :
    GetSummary (some ⟨404, EncodeChecksumIndex 45 4 16 []⟩) 4 =
      some (summaryOf 45 4 []) ∧
    GetSummary (some ⟨404, [1, 2, 3]⟩) 4 = none :=
  ⟨c10_getsummary_ignores_status.2.1 404 (EncodeChecksumIndex 45 4 16 []) 4 45 []
      (by decide),
   c10_getsummary_ignores_status.2.2 404 [1, 2, 3] 4 0 (by decide)⟩

/-! ## The checksum HTTP handler (C8) -/

/-- Accumulated value of a decimal digit string (how Go's strconv builds the
number). -/
def digitsToNat (s : List Char) : Nat :=
  s.foldl (fun acc c => acc * 10 + (c.toNat - '0'.toNat)) 0

/-- Go's `strconv.ParseUint(s, 10, 32)` (standard library, documented
semantics): an empty or non-digit string is a syntax error and returns
value 0; a digit string whose value exceeds `2^32 - 1` is a range error and
returns the maximum, `2^32 - 1`; otherwise the value parses.  The `Bool` is
`err == nil`. -/
def parseUint_10_32 (s : List Char) : Nat × Bool :=
  if s = [] ∨ ¬ s.all (Char.isDigit) then (0, false)
  else if digitsToNat s < 2 ^ 32 then (digitsToNat s, true)
  else (2 ^ 32 - 1, false)

/-- The handler's possible responses, as far as the claims need them: 404
(`http.NotFound`, also used for file errors) or serving the index encoded
with the given block size. -/
inductive HandlerResponse where
  | notFound
  | serveEncoded (blockSize : Nat)
deriving DecidableEq, Repr

/-- `checksumHandler` from src/main.go lines 87-112.  `var blockSize uint64
= 1024*1024` is unconditionally overwritten by `blockSize, err :=
strconv.ParseUint(req.URL.Query().Get("blockSize"), 10, 32)` (an absent
parameter yields the empty string), and `err` is immediately shadowed by
the `os.OpenFile` error without ever being checked.  The handler then
serves the index encoded with `uint(blockSize)`, or 404 when the remote
file is missing.  The encoding itself is elided here: the response records
which block size reaches `EncodeChecksumIndex`. -/
def checksumHandler (blockSizeParam : List Char) (remoteFileExists : Bool) :
    HandlerResponse :=
  let blockSize := (parseUint_10_32 blockSizeParam).1
  if remoteFileExists then .serveEncoded blockSize else .notFound

/-- C8 counterexample: `blockSize=4294967296` (that is `2^32`) does not
parse as an unsigned 32-bit integer, yet the handler proceeds with block
size `4294967295 = 2^32 - 1` — Go's `ParseUint` returns the maximum value
together with a range error — and not with the claimed block size 0. -/
theorem c8_handler_zero_counterexample :
    (parseUint_10_32 "4294967296".toList).2 = false ∧
    checksumHandler "4294967296".toList true = .serveEncoded (2 ^ 32 - 1) ∧
    (2 ^ 32 - 1 : Nat) ≠ 0 := by
  refine ⟨by decide, by decide, by decide⟩

/-- C8 (amended): when the `blockSize` query parameter is absent (empty
string) or does not parse as an unsigned 32-bit integer, the parse error is
discarded, the declared 1 MiB default is overwritten and never used, and no
error response is produced for the bad parameter; the block size actually
used is 0 for an absent or syntactically invalid parameter and `2^32 - 1`
for a syntactically valid but out-of-range one. -/
theorem c8_handler_bad_param (param : List Char)
    (hbad : (parseUint_10_32 param).2 = false) :
    (checksumHandler param true = .serveEncoded 0 ∨
      checksumHandler param true = .serveEncoded (2 ^ 32 - 1)) ∧
    ((param = [] ∨ ¬ param.all (Char.isDigit)) →
      checksumHandler param true = .serveEncoded 0) ∧
    checksumHandler param true ≠ .serveEncoded (1024 * 1024) ∧
    checksumHandler param true ≠ .notFound := by
  unfold checksumHandler
  by_cases hsyn : param = [] ∨ ¬ param.all (Char.isDigit)
  · rw [parseUint_10_32, if_pos hsyn]
    refine ⟨Or.inl rfl, fun _ => rfl, by decide, by decide⟩
  · rw [parseUint_10_32, if_neg hsyn] at hbad ⊢
    by_cases hlt : digitsToNat param < 2 ^ 32
    · rw [if_pos hlt] at hbad
      simp at hbad
    · rw [if_neg hlt] at hbad ⊢
      refine ⟨Or.inr rfl, fun h => absurd h hsyn, by decide, by decide⟩

/-- Witness for C8 (amended) at the absent parameter (empty string). -/
theorem c8_handler_bad_param_witness :
    (checksumHandler [] true = .serveEncoded 0 ∨
      checksumHandler [] true = .serveEncoded (2 ^ 32 - 1)) ∧
    (([] = ([] : List Char) ∨ ¬ List.all [] (Char.isDigit)) →
      checksumHandler [] true = .serveEncoded 0) ∧
    checksumHandler [] true ≠ .serveEncoded (1024 * 1024) ∧
    checksumHandler [] true ≠ .notFound :=
  c8_handler_bad_param [] (by decide)

/-! ## MD5 (the strong checksum: `crypto/md5`, referenced at src/main.go
line 213) -/

/-- The 64 MD5 round constants `floor(2^32 * abs(sin(i+1)))` (RFC 1321). -/
def md5K : List Nat := [
  0xd76aa478, 0xe8c7b756, 0x242070db, 0xc1bdceee,
  0xf57c0faf, 0x4787c62a, 0xa8304613, 0xfd469501,
  0x698098d8, 0x8b44f7af, 0xffff5bb1, 0x895cd7be,
  0x6b901122, 0xfd987193, 0xa679438e, 0x49b40821,
  0xf61e2562, 0xc040b340, 0x265e5a51, 0xe9b6c7aa,
  0xd62f105d, 0x02441453, 0xd8a1e681, 0xe7d3fbc8,
  0x21e1cde6, 0xc33707d6, 0xf4d50d87, 0x455a14ed,
  0xa9e3e905, 0xfcefa3f8, 0x676f02d9, 0x8d2a4c8a,
  0xfffa3942, 0x8771f681, 0x6d9d6122, 0xfde5380c,
  0xa4beea44, 0x4bdecfa9, 0xf6bb4b60, 0xbebfbc70,
  0x289b7ec6, 0xeaa127fa, 0xd4ef3085, 0x04881d05,
  0xd9d4d039, 0xe6db99e5, 0x1fa27cf8, 0xc4ac5665,
  0xf4292244, 0x432aff97, 0xab9423a7, 0xfc93a039,
  0x655b59c3, 0x8f0ccc92, 0xffeff47d, 0x85845dd1,
  0x6fa87e4f, 0xfe2ce6e0, 0xa3014314, 0x4e0811a1,
  0xf7537e82, 0xbd3af235, 0x2ad7d2bb, 0xeb86d391]

/-- The 64 MD5 per-round left-rotation amounts (RFC 1321). -/
def md5S : List Nat := [
  7, 12, 17, 22, 7, 12, 17, 22, 7, 12, 17, 22, 7, 12, 17, 22,
  5, 9, 14, 20, 5, 9, 14, 20, 5, 9, 14, 20, 5, 9, 14, 20,
  4, 11, 16, 23, 4, 11, 16, 23, 4, 11, 16, 23, 4, 11, 16, 23,
  6, 10, 15, 21, 6, 10, 15, 21, 6, 10, 15, 21, 6, 10, 15, 21]

/-- 32-bit left rotation (the two summands occupy disjoint bit ranges). -/
def rotl32 (x n : Nat) : Nat :=
  (x * 2 ^ n) % 2 ^ 32 + x / 2 ^ (32 - n)

/-- MD5 round mixing function for round `i`. -/
def md5F (i b c d : Nat) : Nat :=
  if i < 16 then (b &&& c) ||| ((b ^^^ 0xffffffff) &&& d)
  else if i < 32 then (d &&& b) ||| ((d ^^^ 0xffffffff) &&& c)
  else if i < 48 then b ^^^ c ^^^ d
  else c ^^^ (b ||| (d ^^^ 0xffffffff))

/-- MD5 message-word schedule for round `i`. -/
def md5G (i : Nat) : Nat :=
  if i < 16 then i
  else if i < 32 then (5 * i + 1) % 16
  else if i < 48 then (3 * i + 5) % 16
  else (7 * i) % 16

/-- MD5 padding: a `0x80` byte, zeros to 56 mod 64, then the 8-byte
little-endian bit length. -/
def md5Pad (msg : List Nat) : List Nat :=
  msg ++ [128] ++ List.replicate ((56 - (msg.length + 1) % 64 + 64) % 64) 0 ++
    toBytesLE 8 (msg.length * 8)

/-- The first `n` 4-byte little-endian words of a byte list. -/
def toWordsLE : Nat → List Nat → List Nat
  | 0, _ => []
  | n + 1, l => fromBytesLE (l.take 4) :: toWordsLE n (l.drop 4)

/-- One MD5 round applied to the running `(a, b, c, d)` state. -/
def md5Step (M : List Nat) (st : Nat × Nat × Nat × Nat) (i : Nat) :
    Nat × Nat × Nat × Nat :=
  let f := (md5F i st.2.1 st.2.2.1 st.2.2.2 + st.1 + md5K.getD i 0 +
    M.getD (md5G i) 0) % 2 ^ 32
  (st.2.2.2, (st.2.1 + rotl32 f (md5S.getD i 0)) % 2 ^ 32, st.2.1, st.2.2.1)

/-- One 64-byte MD5 chunk folded into the state. -/
def md5Chunk (st : Nat × Nat × Nat × Nat) (chunk : List Nat) :
    Nat × Nat × Nat × Nat :=
  let M := toWordsLE 16 chunk
  let r := (List.range 64).foldl (md5Step M) st
  ((st.1 + r.1) % 2 ^ 32, (st.2.1 + r.2.1) % 2 ^ 32,
    (st.2.2.1 + r.2.2.1) % 2 ^ 32, (st.2.2.2 + r.2.2.2) % 2 ^ 32)

/-- Split into 64-byte chunks (`fuel` bounds the chunk count). -/
def chunks64 : Nat → List Nat → List (List Nat)
  | 0, _ => []
  | n + 1, l => l.take 64 :: chunks64 n (l.drop 64)

/-- The 16-byte MD5 digest of a byte string (RFC 1321; Go's
`crypto/md5`). -/
def md5Bytes (msg : List Nat) : List Nat :=
  let padded := md5Pad msg
  let st := (chunks64 (padded.length / 64) padded).foldl md5Chunk
    (0x67452301, 0xefcdab89, 0x98badcfe, 0x10325476)
  toBytesLE 4 st.1 ++ toBytesLE 4 st.2.1 ++ toBytesLE 4 st.2.2.1 ++
    toBytesLE 4 st.2.2.2

/-! ## Checksum generation and the patch engine (C6, C7) -/

/-- Modelled from the spec (glossary, §4.1): the weak rolling checksum of a
block — the classic rsync-style pair `a = sum of bytes mod 2^16`,
`b = sum of running prefix sums mod 2^16`, combined as `a + 2^16 * b`.
(The concrete rolling hash lives in the go-sync library, not in src/; the
spec fixes only that it is a cheap 4-byte rolling hash.) -/
def weakChecksum (block : List Nat) : Nat :=
  let p := block.foldl
    (fun ab x => ((ab.1 + x) % 65536, (ab.2 + ab.1 + x) % 65536)) (0, 0)
  p.1 + 65536 * p.2

/-- The 4 weak-checksum bytes of a block (the generator's weak width). -/
def weakBytes (block : List Nat) : List Nat :=
  toBytesLE 4 (weakChecksum block)

/-- Modelled from the spec §3: partition into consecutive `blockSize`-byte
blocks, the last possibly shorter (`fuel` bounds the block count). -/
def partitionBlocks (bs : Nat) : Nat → List Nat → List (List Nat)
  | 0, _ => []
  | _ + 1, [] => []
  | fuel + 1, b :: rest =>
    (b :: rest).take bs :: partitionBlocks bs fuel ((b :: rest).drop bs)

/-- Modelled from the spec §4.1: `generator.GenerateChecksums` — one
(weak, strong) record per block, in block order; weak is the 4-byte rolling
checksum, strong the 16-byte MD5 digest. -/
def generateRecords (blockSize : Nat) (content : List Nat) :
    List ChecksumRecord :=
  (partitionBlocks blockSize content.length content).map
    (fun b => (weakBytes b, md5Bytes b))

/-- `BlockSize` from src/main.go line 25 (deliberately small, for tests). -/
def BlockSize : Nat := 4

/-- `content` from src/main.go line 27, as ASCII bytes. -/
def content : List Nat :=
  "The quick brown fox jumped over the lazy dog".toList.map Char.toNat

/-- A reconstruction-plan instruction (spec §3, ReconstructionPlan). -/
inductive Instruction where
  | copyLocal (localOffset length : Nat)
  | fetchRemote (blockIndex : Nat)
deriving DecidableEq, Repr

/-- Whether an instruction copies from the local file. -/
def Instruction.isCopyLocal : Instruction → Bool
  | .copyLocal _ _ => true
  | .fetchRemote _ => false

/-- First block index whose stored weak and strong checksums both match the
window (weak narrows, strong confirms — spec §4.6). -/
def findMatch (idx : ChecksumIndex) (window : List Nat) : Option Nat :=
  (idx.candidatesFor (weakBytes window)).find?
    (fun c => idx.strongChecksumOf c = some (md5Bytes window))

/-- Modelled from the spec §4.6: the left-to-right sliding-window scan of
the local file.  At each position the window is the next `blockSize` bytes
(fewer at the tail); on a verified match the scan emits the (block index,
local offset) pair and advances by the window length, otherwise it advances
by one byte.  `fuel` bounds the number of steps. -/
def scanAux (idx : ChecksumIndex) (blockSize : Nat) (lcl : List Nat) :
    Nat → Nat → List (Nat × Nat)
  | 0, _ => []
  | fuel + 1, pos =>
    let window := (lcl.drop pos).take blockSize
    if window = [] then []
    else
      match findMatch idx window with
      | some c => (c, pos) :: scanAux idx blockSize lcl fuel (pos + window.length)
      | none => scanAux idx blockSize lcl fuel (pos + 1)

/-- The scan started at offset 0 with enough fuel for the whole file. -/
def scanMatches (idx : ChecksumIndex) (blockSize : Nat) (lcl : List Nat) :
    List (Nat × Nat) :=
  scanAux idx blockSize lcl (lcl.length + 1) 0

/-- Length of target block `i` (spec §3): `blockSize`, except the last
block of a file whose size is not a multiple of `blockSize`. -/
def blockLength (blockSize fileSize i : Nat) : Nat :=
  min blockSize (fileSize - blockSize * i)

/-- Modelled from the spec §4.6: the final plan is one instruction per
target block, in target-block order — CopyLocal at the recorded local
offset if a verified local match was found for that block, otherwise
FetchRemote. -/
def buildPlan (idx : ChecksumIndex) (blockSize fileSize : Nat)
    (found : List (Nat × Nat)) : List Instruction :=
  (List.range idx.records.length).map (fun i =>
    match found.find? (fun m => m.1 = i) with
    | some m => .copyLocal m.2 (blockLength blockSize fileSize i)
    | none => .fetchRemote i)

/-- Modelled from the spec §4.6 execution phase: resolve CopyLocal from the
local source and FetchRemote from the remote content, concatenating in
block order; the second component counts the bytes fetched remotely. -/
def execPlan (lcl remote : List Nat) (blockSize : Nat)
    (plan : List Instruction) : List Nat × Nat :=
  plan.foldl (fun acc inst =>
    match inst with
    | .copyLocal off len => (acc.1 ++ (lcl.drop off).take len, acc.2)
    | .fetchRemote i =>
      (acc.1 ++ (remote.drop (i * blockSize)).take blockSize,
        acc.2 + ((remote.drop (i * blockSize)).take blockSize).length))
    ([], 0)

/-- Modelled from the spec §4.6: the whole patch operation — scan, plan,
execute — returning the plan, the reconstructed output and the count of
remotely fetched bytes. -/
def patch (idx : ChecksumIndex) (blockSize fileSize : Nat)
    (lcl remote : List Nat) : List Instruction × List Nat × Nat :=
  (buildPlan idx blockSize fileSize (scanMatches idx blockSize lcl),
    execPlan lcl remote blockSize
      (buildPlan idx blockSize fileSize (scanMatches idx blockSize lcl)))

set_option maxRecDepth 8000 in
/-- C6: with the reference content `"The quick brown fox jumped over the
lazy dog"` and block size 4 (src/main.go lines 25-27), a local file
byte-identical to the reference makes the patch operation reconstruct
output equal to the reference exactly and fetch zero bytes from the remote
source — the plan is CopyLocal-only.  The summary comes through the actual
codec pipeline (`GetSummary` over `EncodeChecksumIndex`). -/
theorem c6_identical_local_zero_fetch :
    GetSummary (some ⟨200, EncodeChecksumIndex (content.length : Int) 4 16
        (generateRecords BlockSize content)⟩) (BlockSize : Int) =
      some (summaryOf (content.length : Int) (BlockSize : Int)
        (generateRecords BlockSize content)) ∧
    (patch (summaryOf (content.length : Int) (BlockSize : Int)
        (generateRecords BlockSize content)).checksumIndex BlockSize
        content.length content content).2.1 = content ∧
    (patch (summaryOf (content.length : Int) (BlockSize : Int)
        (generateRecords BlockSize content)).checksumIndex BlockSize
        content.length content content).2.2 = 0 ∧
    ((patch (summaryOf (content.length : Int) (BlockSize : Int)
        (generateRecords BlockSize content)).checksumIndex BlockSize
        content.length content content).1.all Instruction.isCopyLocal) =
      true := by
  decide

/-! ## MakeRSync wiring (C7) -/

/-- The hash algorithm stored in the verifier (src stores `md5.New()`). -/
inductive HashAlg where
  | md5
deriving DecidableEq, Repr

/-- Evaluation of the stored hash on a byte string. -/
def HashAlg.eval : HashAlg → List Nat → List Nat
  | .md5 => md5Bytes

/-- The strong checksum a `BasicSummary` serves for a block
(`GetStrongChecksumForBlock` via the `ChecksumLookup` of src/main.go line
189; out-of-range is an error, spec §4.3). -/
def BasicSummary.strongChecksumOf (fs : BasicSummary) (i : Nat) :
    Option (List Nat) :=
  fs.checksumLookup.get? i

/-- `filechecksum.HashVerifier` as constructed in src/main.go lines
212-216: the hash, the block size and the per-block checksum getter. -/
structure HashVerifier where
  hash : HashAlg
  blockSize : Nat
  blockChecksumGetter : BasicSummary
deriving DecidableEq, Repr

/-- Modelled from the spec §4.5 step 3: verification of a fetched block —
compute the strong checksum of the received bytes with the stored hash and
compare it against the checksum the getter serves for that block. -/
def HashVerifier.verify (v : HashVerifier) (blockIndex : Nat)
    (data : List Nat) : Bool :=
  some (v.hash.eval data) == v.blockChecksumGetter.strongChecksumOf blockIndex

/-- `blocksources.MakeFileSizedBlockResolver` arguments (src/main.go lines
208-211). -/
structure FileSizedBlockResolver where
  blockSize : Nat
  fileSize : Int
deriving DecidableEq, Repr

/-- `MB` from the go-sync package (1 MiB), used for the byte budget. -/
def MB : Nat := 1024 * 1024

/-- `blocksources.BlockSourceBase` as constructed in src/main.go lines
203-219: requester URL, resolver, verifier, concurrency 1, budget 4 MB. -/
structure BlockSourceBase where
  requesterUrl : String
  resolver : FileSizedBlockResolver
  verifier : HashVerifier
  concurrentRequests : Nat
  byteBudget : Nat
deriving DecidableEq, Repr

/-- `gosync.RSync` as far as `MakeRSync` fills it (Input/Output are I/O
handles, not modelled). -/
structure RSync where
  source : BlockSourceBase
  summary : BasicSummary
deriving DecidableEq, Repr

/-- `MakeRSync` from src/main.go lines 199-223. -/
def MakeRSync (remote : String) (fs : BasicSummary) : RSync where
  source := {
    requesterUrl := remote
    resolver := { blockSize := fs.blockSize, fileSize := fs.fileSize }
    verifier := { hash := .md5, blockSize := fs.blockSize,
                  blockChecksumGetter := fs }
    concurrentRequests := 1
    byteBudget := 4 * MB }
  summary := fs

/-- C7: for every `FileSummary` `fs`, the block source constructed by
`MakeRSync` verifies every fetched block by computing an MD5 strong
checksum of the received bytes and comparing it against the checksum
obtained from `fs`, using `fs`'s block size and `fs` itself as the
per-block checksum getter. -/
theorem c7_verifier_wiring (remote : String) (fs : BasicSummary)
    (blockIndex : Nat) (data : List Nat) :
    (MakeRSync remote fs).source.verifier.hash = HashAlg.md5 ∧
    (MakeRSync remote fs).source.verifier.blockSize = fs.blockSize ∧
    (MakeRSync remote fs).source.verifier.blockChecksumGetter = fs ∧
    (MakeRSync remote fs).source.verifier.verify blockIndex data =
      (some (md5Bytes data) == fs.strongChecksumOf blockIndex) :=
  ⟨rfl, rfl, rfl, rfl⟩
